import Mathlib

/-!
Verification development for the `err-tree` repository.

We shallowly embed the error-tree data model and the rendering engine of
`crates/err-tree/src/display.rs`, the serde mirror of
`crates/serde-err-tree/src/{adapter,tree}.rs`, and the `Mishap` constructors of
`crates/mishap/src/mishap.rs`, and prove the spec's claims about them.
-/

namespace ErrTree

/-! ### The `indent_write` writer model

`display.rs` writes through `indent_write::fmt::IndentWriter`, which lazily
inserts the indent string before the first non-newline character of each line
(blank lines are never indented).  `IndentWriter::new` starts with the indent
pending; `IndentWriter::new_skip_initial` starts with it not pending.  We model
the transformation a writer applies to the complete character stream it
receives during its lifetime. -/

/-- The character-level state machine of `indent_write`: `need` records whether
an indent is pending; it is emitted just before the next non-newline
character.  Newlines pass through unindented and set `need`. -/
def indentCore (ind : String) : Bool → List Char → String
  | _, [] => ""
  | need, c :: rest =>
    if c = '\n' then "\n" ++ indentCore ind true rest
    else (if need then ind else "") ++ String.singleton c ++ indentCore ind false rest

/-- `IndentWriter::new ind` applied to a complete stream `s`. -/
def applyIndent (ind s : String) : String := indentCore ind true s.data

/-- `IndentWriter::new_skip_initial ind` applied to a complete stream `s`. -/
def applyIndentSkip (ind s : String) : String := indentCore ind false s.data

/-! ### Data model

A leaf chain (`std::error::Error`-style) has a display message and an optional
single cause; an error tree (`ErrorTree` trait) has a display message and an
ordered list of sources, each either a chain or a tree
(`ErrorTreeSource::Error` / `ErrorTreeSource::Tree`). -/

/-- A `std::error::Error`-style chain: message plus optional single cause. -/
inductive ErrChain where
  | leaf (msg : String)
  | link (msg : String) (cause : ErrChain)
deriving DecidableEq

/-- The `Display` string of a chain link (`error.to_string()`). -/
def chainMsg : ErrChain → String
  | .leaf m => m
  | .link m _ => m

/-- `error.source()`. -/
def chainCause : ErrChain → Option ErrChain
  | .leaf _ => none
  | .link _ c => some c

/-- Messages of the strict causes of a chain, outermost first. -/
def chainTail : ErrChain → List String
  | .leaf _ => []
  | .link _ c => chainMsg c :: chainTail c

mutual
/-- A value implementing the `ErrorTree` trait, observed through its
`Display` string and its `sources()` list. -/
inductive ETree where
  | mk (display : String) (sources : List ESource)

/-- `ErrorTreeSource<'_>`: either a plain error chain or a nested tree. -/
inductive ESource where
  | error (e : ErrChain)
  | tree (t : ETree)
end

/-- The display message of a tree. -/
def ETree.display : ETree → String
  | .mk d _ => d

/-- The sources list of a tree. -/
def ETree.sources : ETree → List ESource
  | .mk _ ss => ss

/-- `DisplayKind` of `display.rs`. -/
inductive DKind where
  | single
  | multi
deriving DecidableEq

/-- The bullet glyph for an entry line: `"- "` in `Single`, `"+ "` in
`Multi` state. -/
def glyphStr : DKind → String
  | .single => "- "
  | .multi => "+ "

/-! ### The rendering engine (`display.rs`) -/

/-- The `while let Some(source) = next` loop of `display_nested_error` in
`Single` state: each strict cause of the given link is one `"- "` bullet line
through a fresh `new_skip_initial "  "` writer. -/
def displayLinksSingle : ErrChain → String
  | .leaf _ => ""
  | .link _ c =>
    applyIndentSkip "  " ("- " ++ chainMsg c ++ "\n") ++ displayLinksSingle c

/-- The loop of `display_nested_error` in `Multi` state: each strict cause is
written as `"  - msg"` through a fresh `new_skip_initial "    "` writer. -/
def displayLinksMulti : ErrChain → String
  | .leaf _ => ""
  | .link _ c =>
    applyIndentSkip "    " ("  - " ++ chainMsg c ++ "\n") ++ displayLinksMulti c

def displayNestedError (e : ErrChain) (k : DKind) : String :=
  match k with
  | .single => applyIndentSkip "  " ("- " ++ chainMsg e ++ "\n") ++ displayLinksSingle e
  | .multi => applyIndentSkip "  " ("+ " ++ chainMsg e ++ "\n") ++ displayLinksMulti e

mutual
/-- `display_nested_source`: dispatch on the source tag. -/
def displayNestedSource : ESource → DKind → String
  | .error e, k => displayNestedError e k
  | .tree t, k => displayNestedTree t k

/-- `display_nested_tree`: entry line through `new_skip_initial "  "`, then a
case split on the node's own source count; with one source the parent state
decides whether an extra `IndentWriter::new "  "` is interposed, with more
than one an extra indent is always added and all children run in `Multi`. -/
def displayNestedTree : ETree → DKind → String
  | .mk d ss, k =>
    applyIndentSkip "  " (glyphStr k ++ d ++ "\n") ++
      match ss with
      | [] => ""
      | [s] =>
        match k with
        | .single => displayNestedSource s .single
        | .multi => applyIndent "  " (displayNestedSource s .single)
      | s₁ :: s₂ :: rest =>
        applyIndent "  "
          (displayNestedSource s₁ .multi ++ displayNestedSource s₂ .multi ++
            displayMultiRest rest)

/-- The trailing loop of the more-than-one-source branch: remaining sources,
all rendered in `Multi` state into the same indent writer. -/
def displayMultiRest : List ESource → String
  | [] => ""
  | s :: rest => displayNestedSource s .multi ++ displayMultiRest rest
end

/-- `display_tree`: root message verbatim, then (if any sources) the
`"\n\nCaused by:\n"` separator written with `writeln!` (hence a trailing blank
line), then the sources through an `IndentWriter::new "  "`, in `Single` state
for exactly one source and `Multi` state for several. -/
def displayTree : ETree → String
  | .mk d ss =>
    d ++
      match ss with
      | [] => ""
      | [s] => "\n\nCaused by:\n\n" ++ applyIndent "  " (displayNestedSource s .single)
      | s₁ :: s₂ :: rest =>
        "\n\nCaused by:\n\n" ++
          applyIndent "  "
            (displayNestedSource s₁ .multi ++ displayNestedSource s₂ .multi ++
              displayMultiRest rest)

/-- `display_error`: the fallback rendering of a plain `std::error::Error`
(`ErrorTreeSourceDisplay` on an `Error` source).  The banner is written with
`writeln!(f, "\n\nCaused by:")`, without a trailing blank line, and the cause
chain is then rendered in `Single` state directly into `f`. -/
def displayError (e : ErrChain) : String :=
  chainMsg e ++
    match chainCause e with
    | none => ""
    | some c => "\n\nCaused by:\n" ++ displayNestedError c .single

/-! ### The serde mirror (`serde-err-tree`)

Serialization is modelled at the serde data-model level: the serializers of
`adapter.rs` emit a struct with fields `"msg"` (a string) and `"sources"`
(a sequence), which we represent as a JSON value; the byte layer is a
deterministic JSON printer.  Deserialization models the derived
`Deserialize` for `SerdeErrorTree` (named fields in any order, duplicate
fields rejected, unknown fields ignored). -/

/-- A JSON value, restricted to the shapes the serializers emit and the
derived deserializer inspects. -/
inductive JVal where
  | str (s : String)
  | arr (xs : List JVal)
  | obj (fields : List (String × JVal))

/-- Four-digit lowercase hex, for `\u00XX` escapes of control characters. -/
def hexDigit (n : Nat) : String :=
  String.singleton (if n < 10 then Char.ofNat (48 + n) else Char.ofNat (87 + n))

/-- JSON string escaping as `serde_json` performs it (quotes, backslashes,
named control escapes, `\u00XX` for other control characters). -/
def escChar (c : Char) : String :=
  if c = '"' then "\\\""
  else if c = '\\' then "\\\\"
  else if c = '\n' then "\\n"
  else if c = '\r' then "\\r"
  else if c = '\t' then "\\t"
  else if c = (Char.ofNat 8) then "\\b"
  else if c = (Char.ofNat 12) then "\\f"
  else if c.toNat < 32 then
    "\\u00" ++ hexDigit (c.toNat / 16) ++ hexDigit (c.toNat % 16)
  else String.singleton c

/-- A JSON string literal. -/
def jsonQuote (s : String) : String :=
  "\"" ++ String.join (s.data.map escChar) ++ "\""

mutual
/-- Compact deterministic JSON printing of a value (the byte layer of
serialization). -/
def jvalToString : JVal → String
  | .str s => jsonQuote s
  | .arr [] => "[]"
  | .arr (x :: xs) => "[" ++ jvalToString x ++ jarrRest xs ++ "]"
  | .obj [] => "\x7b\x7d"
  | .obj ((k, v) :: fs) =>
    "\x7b" ++ jsonQuote k ++ ":" ++ jvalToString v ++ jobjRest fs ++ "\x7d"

def jarrRest : List JVal → String
  | [] => ""
  | x :: xs => "," ++ jvalToString x ++ jarrRest xs

def jobjRest : List (String × JVal) → String
  | [] => ""
  | (k, v) :: fs => "," ++ jsonQuote k ++ ":" ++ jvalToString v ++ jobjRest fs
end

/-- `SerError`'s `Serialize` impl: a chain link becomes an `ErrorTree` struct
whose `sources` sequence holds the next link, if any (`SerErrorSources`). -/
def chainSer : ErrChain → JVal
  | .leaf m => .obj [("msg", .str m), ("sources", .arr [])]
  | .link m c => .obj [("msg", .str m), ("sources", .arr [chainSer c])]

mutual
/-- `Ser`'s `Serialize` impl: the `ErrorTree` struct with `msg` the tree's
display string and `sources` the serialized sources (`SerSources`). -/
def serTree : ETree → JVal
  | .mk d ss => .obj [("msg", .str d), ("sources", .arr (serSourcesList ss))]

/-- The `SerSources` sequence: each source serialized in order. -/
def serSourcesList : List ESource → List JVal
  | [] => []
  | s :: rest => serSource s :: serSourcesList rest

/-- `SerSource`'s `Serialize` impl: dispatch on the source tag. -/
def serSource : ESource → JVal
  | .error e => chainSer e
  | .tree t => serTree t
end

/-- `SerdeErrorTree` (structurally identical to `StringErrorTree`): an owned
canonical tree of strings. -/
inductive STree where
  | mk (msg : String) (sources : List STree)

/-- The message of a canonical tree node. -/
def STree.msg : STree → String
  | .mk m _ => m

/-- The sources of a canonical tree node. -/
def STree.sources : STree → List STree
  | .mk _ ss => ss

/-- `SerdeErrorTree::from_error`: flatten a chain into nested single-child
canonical nodes. -/
def chainToSTree : ErrChain → STree
  | .leaf m => .mk m []
  | .link m c => .mk m [chainToSTree c]

mutual
/-- `SerdeErrorTree::new`: deep-copy an arbitrary error tree into its
canonical form, flattening chain sources via `from_error`. -/
def serdeNew : ETree → STree
  | .mk d ss => .mk d (serdeNewSources ss)

/-- The source conversion loop of `SerdeErrorTree::new`. -/
def serdeNewSources : List ESource → List STree
  | [] => []
  | .error e :: rest => chainToSTree e :: serdeNewSources rest
  | .tree t :: rest => serdeNew t :: serdeNewSources rest
end

mutual
/-- `SerdeErrorTree`'s own `Serialize` impl (it goes through `Ser`, whose
sources view of a `SerdeErrorTree` is the list of child trees, each a `Tree`
source). -/
def serdeSer : STree → JVal
  | .mk m ss => .obj [("msg", .str m), ("sources", .arr (serdeSerList ss))]

/-- Serialization of the child list of a `SerdeErrorTree`. -/
def serdeSerList : List STree → List JVal
  | [] => []
  | t :: ts => serdeSer t :: serdeSerList ts
end

mutual
/-- The derived `Deserialize` for `SerdeErrorTree` applied to a JSON value:
only objects are accepted; fields are folded left to right. -/
def deserSTree : JVal → Option STree
  | .obj fields => deserFields fields none none
  | _ => none

/-- The field loop of the derived deserializer: `msg` must be a string,
`sources` an array of trees; a duplicate of either is an error; unknown
fields are skipped; both fields must be present at the end. -/
def deserFields : List (String × JVal) → Option String → Option (List STree) → Option STree
  | [], m?, s? =>
    match m?, s? with
    | some m, some ss => some (.mk m ss)
    | _, _ => none
  | (k, v) :: rest, m?, s? =>
    if k = "msg" then
      match m?, v with
      | none, .str m => deserFields rest (some m) s?
      | _, _ => none
    else if k = "sources" then
      match s?, v with
      | none, .arr xs =>
        match deserElems xs with
        | some ss => deserFields rest m? (some ss)
        | none => none
      | _, _ => none
    else deserFields rest m? s?

/-- Element-wise deserialization of a `sources` array. -/
def deserElems : List JVal → Option (List STree)
  | [] => some []
  | x :: xs =>
    match deserSTree x, deserElems xs with
    | some t, some ts => some (t :: ts)
    | _, _ => none
end

/-! ### The `Mishap` layer (`mishap.rs` / `wrapped.rs`)

A `Mishap` wraps a `TreeImpl`: either an `anyhow::Error` (a chain; its
`Display` prints the outermost message and its `source()` is the next link)
or a boxed `ErrorTree` (for wrapped construction, a `WrappedTree`, whose
`Display` prints only its message and whose sources are the wrapped children
as `Tree` sources).  We observe trait objects through their error-tree view
(`ETree`). -/

/-- `TreeImpl`: the two representations a `Mishap` can hold. -/
inductive TreeImpl where
  | error (e : ErrChain)
  | tree (t : ETree)

/-- The error-tree view of an `anyhow::Error` (its `ErrorTree` impl in
`anyhow_impl.rs`): display is the outermost message, sources are the single
`Error` source if present. -/
def chainToETree (e : ErrChain) : ETree :=
  .mk (chainMsg e)
    (match chainCause e with
     | none => []
     | some c => [.error c])

/-- The error-tree view of a `Mishap` (its `ErrorTree` and `Display` impls
combined): an `Error` kind behaves as the anyhow chain, a `Tree` kind
delegates to the wrapped tree. -/
def mishapToETree : TreeImpl → ETree
  | .error e => chainToETree e
  | .tree t => t

/-- `impl fmt::Display for Mishap`: delegate to the anyhow error's `Display`
(outermost message) or to `WrappedTree`'s `Display` (its message only). -/
def mishapFmt : TreeImpl → String
  | .error e => chainMsg e
  | .tree t => t.display

/-- `Mishap::sources` (the `ErrorTree` impl): the anyhow chain contributes
its optional cause as an `Error` source; a tree delegates. -/
def mishapSources : TreeImpl → List ESource
  | .error e =>
    match chainCause e with
    | none => []
    | some c => [.error c]
  | .tree t => t.sources

/-- `TreeImpl::new_wrapped_tree`: collect the sources; an empty collection
collapses to a plain chain holding `anyhow!(msg.to_string())`; otherwise a
`WrappedTree` is built, whose error-tree view lists the children as `Tree`
sources. -/
def newWrappedTree (msg : String) (sources : List ETree) : TreeImpl :=
  if sources.isEmpty then .error (.leaf msg)
  else .tree (.mk msg (sources.map .tree))

/-- `Mishap::from_error_trees_and_msg`. -/
def fromErrorTreesAndMsg (msg : String) (sources : List ETree) : TreeImpl :=
  newWrappedTree msg sources

/-- `Mishap::from_anyhows_and_msg`: each anyhow error is wrapped as-is; its
error-tree view is `chainToETree`. -/
def fromAnyhowsAndMsg (msg : String) (sources : List ErrChain) : TreeImpl :=
  newWrappedTree msg (sources.map chainToETree)

/-- `Mishap::from_errors_and_msg`: each error is converted to an anyhow error
(`anyhow!(e)`, preserving the message chain) and then wrapped. -/
def fromErrorsAndMsg (msg : String) (sources : List ErrChain) : TreeImpl :=
  newWrappedTree msg (sources.map chainToETree)

/-- The rebuild loop of `Mishap::from_borrowed_error`: the innermost message
becomes `anyhow!(msg)` and each outer message is layered on with
`.context(...)`, reproducing the chain of messages. -/
def chainOfMsgs : String → List String → ErrChain
  | m, [] => .leaf m
  | m, m₂ :: rest => .link m (chainOfMsgs m₂ rest)

/-- `Mishap::from_borrowed_error`: stringify the chain and rebuild it. -/
def fromBorrowedError (e : ErrChain) : TreeImpl :=
  .error (chainOfMsgs (chainMsg e) (chainTail e))

mutual
/-- `Mishap::from_borrowed_tree`: stringify each source recursively into a
`Mishap` and wrap the results under the tree's display string. -/
def fromBorrowedTree : ETree → TreeImpl
  | .mk d ss => newWrappedTree d (borrowedSources ss)

/-- The source conversion loop of `from_borrowed_tree`, with each resulting
`Mishap` observed through its error-tree view. -/
def borrowedSources : List ESource → List ETree
  | [] => []
  | .error e :: rest => mishapToETree (fromBorrowedError e) :: borrowedSources rest
  | .tree t :: rest => mishapToETree (fromBorrowedTree t) :: borrowedSources rest
end

/-! ### Helper lemmas about the indent machine -/

/-- The pending-indent state after feeding a character list to the machine. -/
def needAfter (b : Bool) : List Char → Bool
  | [] => b
  | c :: rest => needAfter (c == '\n') rest

/-- Concatenation of rendered fragments, used to state per-link output. -/
def concatMap (f : α → String) : List α → String
  | [] => ""
  | a :: as => f a ++ concatMap f as

/-- The serialized shape the spec prescribes for a chain with the given
message list: nested `ErrorTree` objects, each with a single-element
`sources` array except the innermost, whose array is empty.  Stated from the
spec's words, to be compared against the code's serializers. -/
def specNestedJson : String → List String → JVal
  | m, [] => .obj [("msg", .str m), ("sources", .arr [])]
  | m, m₂ :: rest => .obj [("msg", .str m), ("sources", .arr [specNestedJson m₂ rest])]

/-- The canonical-tree shape the spec prescribes for a chain: nested
single-child nodes, terminal node with no children.  Stated from the spec's
words. -/
def specNestedSTree : String → List String → STree
  | m, [] => .mk m []
  | m, m₂ :: rest => .mk m [specNestedSTree m₂ rest]

theorem indentCore_append (ind : String) (xs : List Char) :
    ∀ (b : Bool) (ys : List Char),
      indentCore ind b (xs ++ ys) =
        indentCore ind b xs ++ indentCore ind (needAfter b xs) ys := by
  induction xs with
  | nil =>
    intro b ys
    simp [indentCore, needAfter]
  | cons c rest ih =>
    intro b ys
    by_cases h : c = '\n'
    · subst h
      simp [indentCore, needAfter, ih, String.append_assoc]
    · have hb : (c == '\n') = false := beq_eq_false_iff_ne.mpr h
      simp [indentCore, needAfter, h, hb, ih, String.append_assoc]

theorem indentCore_noNL (ind : String) (cs : List Char) (h : '\n' ∉ cs) :
    indentCore ind false cs = String.mk cs := by
  induction cs with
  | nil => rfl
  | cons c rest ih =>
    have hc : c ≠ '\n' := fun hc => h (hc ▸ List.mem_cons_self c rest)
    have hrest : '\n' ∉ rest := fun hr => h (List.mem_cons_of_mem c hr)
    apply String.ext
    simp [indentCore, hc, ih hrest, String.data_append, String.singleton]

theorem needAfter_noNL (cs : List Char) (h : '\n' ∉ cs) :
    needAfter false cs = false := by
  induction cs with
  | nil => rfl
  | cons c rest ih =>
    have hc : c ≠ '\n' := fun hc => h (hc ▸ List.mem_cons_self c rest)
    have hrest : '\n' ∉ rest := fun hr => h (List.mem_cons_of_mem c hr)
    have hb : (c == '\n') = false := beq_eq_false_iff_ne.mpr hc
    simpa [needAfter, hb] using ih hrest

/-- A skip-initial writer passes a newline-free prefix through untouched. -/
theorem applyIndentSkip_split (ind p q : String) (h : '\n' ∉ p.data) :
    applyIndentSkip ind (p ++ q) = p ++ applyIndentSkip ind q := by
  show indentCore ind false (p ++ q).data = p ++ indentCore ind false q.data
  rw [String.data_append, indentCore_append, indentCore_noNL ind p.data h,
    needAfter_noNL p.data h]

/-- A single newline-free line passes through a skip-initial writer
untouched. -/
theorem applyIndentSkip_line (ind s : String) (h : '\n' ∉ s.data) :
    applyIndentSkip ind (s ++ "\n") = s ++ "\n" := by
  rw [applyIndentSkip_split ind s "\n" h]
  rfl

/-- A pending indent is emitted before the first character of a line when
that character is not a newline. -/
theorem indentCore_true_cons (ind : String) (c : Char) (rest : List Char)
    (h : c ≠ '\n') :
    indentCore ind true (c :: rest) = ind ++ indentCore ind false (c :: rest) := by
  simp [indentCore, h, String.append_assoc]

/-- A single nonempty newline-free line through a full indent writer gets
exactly one copy of the indent prefix. -/
theorem applyIndent_line (ind s : String) (hne : s.data ≠ []) (h : '\n' ∉ s.data) :
    applyIndent ind (s ++ "\n") = ind ++ s ++ "\n" := by
  show indentCore ind true (s ++ "\n").data = ind ++ s ++ "\n"
  rw [String.data_append]
  obtain ⟨c, rest, hcr⟩ : ∃ c rest, s.data = c :: rest := by
    cases hd : s.data with
    | nil => exact absurd hd hne
    | cons c rest => exact ⟨c, rest, rfl⟩
  have hc : c ≠ '\n' := fun hc => h (hcr ▸ hc ▸ List.mem_cons_self c rest)
  rw [hcr, List.cons_append, indentCore_true_cons ind c (rest ++ "\n".data) hc,
    ← List.cons_append, ← hcr, ← String.data_append,
    show (s ++ "\n").data = (s ++ "\n").data from rfl]
  have : indentCore ind false (s ++ "\n").data = s ++ "\n" :=
    applyIndentSkip_line ind s h
  rw [this, String.append_assoc]

/-- An indent writer distributes over a block boundary that sits right after
a newline. -/
theorem applyIndent_block (ind a b : String) (h : needAfter true a.data = true) :
    applyIndent ind (a ++ b) = applyIndent ind a ++ applyIndent ind b := by
  show indentCore ind true (a ++ b).data =
    indentCore ind true a.data ++ indentCore ind true b.data
  rw [String.data_append, indentCore_append, h]

theorem needAfter_append (b : Bool) (xs ys : List Char) :
    needAfter b (xs ++ ys) = needAfter (needAfter b xs) ys := by
  induction xs generalizing b with
  | nil => rfl
  | cons c rest ih => simp [needAfter, ih]

/-- Any string ending in a newline leaves the indent pending. -/
theorem needAfter_newline (b : Bool) (s : String) :
    needAfter b (s ++ "\n").data = true := by
  rw [String.data_append, needAfter_append]
  rfl

/-! ### Serde round-trip lemmas -/

theorem serdeSer_chainToSTree (e : ErrChain) :
    serdeSer (chainToSTree e) = chainSer e := by
  induction e with
  | leaf m => rfl
  | link m c ih => simp [chainToSTree, chainSer, serdeSer, serdeSerList, ih]

mutual
theorem serdeSer_serdeNew : (t : ETree) → serdeSer (serdeNew t) = serTree t
  | .mk d ss => by
    simp [serdeNew, serTree, serdeSer, serdeSerList_serdeNewSources ss]

theorem serdeSerList_serdeNewSources :
    (ss : List ESource) → serdeSerList (serdeNewSources ss) = serSourcesList ss
  | [] => rfl
  | .error e :: rest => by
    simp [serdeNewSources, serdeSerList, serSourcesList, serSource,
      serdeSer_chainToSTree, serdeSerList_serdeNewSources rest]
  | .tree t :: rest => by
    simp [serdeNewSources, serdeSerList, serSourcesList, serSource,
      serdeSer_serdeNew t, serdeSerList_serdeNewSources rest]
end

theorem deser_chainSer (e : ErrChain) :
    deserSTree (chainSer e) = some (chainToSTree e) := by
  induction e with
  | leaf m => rfl
  | link m c ih =>
    simp [chainSer, deserSTree, deserFields, deserElems, ih, chainToSTree]

mutual
theorem deser_serTree : (t : ETree) → deserSTree (serTree t) = some (serdeNew t)
  | .mk d ss => by
    simp [serTree, deserSTree, deserFields, deserElems, serdeNew,
      deserElems_serSources ss]

theorem deserElems_serSources :
    (ss : List ESource) → deserElems (serSourcesList ss) = some (serdeNewSources ss)
  | [] => rfl
  | .error e :: rest => by
    simp [serSourcesList, serSource, deserElems, deser_chainSer,
      deserElems_serSources rest, serdeNewSources]
  | .tree t :: rest => by
    simp [serSourcesList, serSource, deserElems, deser_serTree t,
      deserElems_serSources rest, serdeNewSources]
end

/-! ### Rendering lemmas -/

theorem noNL_append (p m : String) (hp : '\n' ∉ p.data) (hm : '\n' ∉ m.data) :
    '\n' ∉ (p ++ m).data := by
  rw [String.data_append]
  simp [List.mem_append, hp, hm]

/-- The entry line of a nested render passes its glyph through untouched. -/
theorem applyIndentSkip_glyph (k : DKind) (d : String) :
    applyIndentSkip "  " (glyphStr k ++ d ++ "\n") =
      glyphStr k ++ applyIndentSkip "  " (d ++ "\n") := by
  rw [String.append_assoc, applyIndentSkip_split "  " (glyphStr k) (d ++ "\n")
    (by cases k <;> decide)]

theorem displayLinksSingle_noNL (e : ErrChain)
    (h : ∀ m ∈ chainTail e, '\n' ∉ m.data) :
    displayLinksSingle e = concatMap (fun m => "- " ++ m ++ "\n") (chainTail e) := by
  induction e with
  | leaf m => rfl
  | link m c ih =>
    have hmsg : '\n' ∉ (chainMsg c).data :=
      h (chainMsg c) (List.mem_cons_self _ _)
    have hrest : ∀ x ∈ chainTail c, '\n' ∉ x.data := by
      intro x hx
      cases c with
      | leaf _ => simp [chainTail] at hx
      | link m₂ c₂ =>
        exact h x (List.mem_cons_of_mem _ hx)
    rw [displayLinksSingle, chainTail, concatMap, ih hrest,
      show ("- " ++ chainMsg c ++ "\n") = (("- " ++ chainMsg c) ++ "\n") from rfl,
      applyIndentSkip_line "  " ("- " ++ chainMsg c)
        (noNL_append "- " (chainMsg c) (by decide) hmsg)]

theorem displayLinksMulti_noNL (e : ErrChain)
    (h : ∀ m ∈ chainTail e, '\n' ∉ m.data) :
    displayLinksMulti e = concatMap (fun m => "  - " ++ m ++ "\n") (chainTail e) := by
  induction e with
  | leaf m => rfl
  | link m c ih =>
    have hmsg : '\n' ∉ (chainMsg c).data :=
      h (chainMsg c) (List.mem_cons_self _ _)
    have hrest : ∀ x ∈ chainTail c, '\n' ∉ x.data := by
      intro x hx
      cases c with
      | leaf _ => simp [chainTail] at hx
      | link m₂ c₂ =>
        exact h x (List.mem_cons_of_mem _ hx)
    rw [displayLinksMulti, chainTail, concatMap, ih hrest,
      show ("  - " ++ chainMsg c ++ "\n") = (("  - " ++ chainMsg c) ++ "\n") from rfl,
      applyIndentSkip_line "    " ("  - " ++ chainMsg c)
        (noNL_append "  - " (chainMsg c) (by decide) hmsg)]

/-! ### Claim theorems -/

/-- C1: rendering via `display_tree` the root `"top"` with tree sources `A`
(message `"a"`, one chain source `"a1"` caused by `"a2"`) and `B` (message
`"b"`, no sources) produces exactly the lines `top`, blank, `Caused by:`,
blank, `  + a`, `    - a1`, `    - a2`, `  + b`, each newline-terminated. -/
theorem c1_concrete_scenario_render :
    displayTree
      (.mk "top"
        [.tree (.mk "a" [.error (.link "a1" (.leaf "a2"))]),
         .tree (.mk "b" [])]) =
      "top\n\nCaused by:\n\n  + a\n    - a1\n    - a2\n  + b\n" := by
  decide

/-- C2: for every error tree `T`, serializing `Ser::new(T)`, deserializing
the result into a `SerdeErrorTree`, and serializing that value again yields
output byte-for-byte identical to the first serialization. -/
theorem c2_reserialization_byte_identical (t : ETree) :
    ∃ u, deserSTree (serTree t) = some u ∧
      jvalToString (serdeSer u) = jvalToString (serTree t) :=
  ⟨serdeNew t, deser_serTree t, by rw [serdeSer_serdeNew]⟩

/-- C3: for every error tree `T`, the canonical tree built directly by
`SerdeErrorTree::new(T)` is structurally equal to the `SerdeErrorTree`
obtained by serializing `Ser::new(T)` and deserializing the result. -/
theorem c3_direct_canonical_equals_roundtrip (t : ETree) :
    deserSTree (serTree t) = some (serdeNew t) :=
  deser_serTree t

/-- C8: serializing a chain with `N` links produces `N` nested `ErrorTree`
objects, each with that link's message and a single-element `sources` list
except the innermost, whose list is empty; `SerdeErrorTree::from_error`
flattens the same way. -/
theorem c8_chain_flattening (e : ErrChain) :
    chainSer e = specNestedJson (chainMsg e) (chainTail e) ∧
      chainToSTree e = specNestedSTree (chainMsg e) (chainTail e) := by
  induction e with
  | leaf m => exact ⟨rfl, rfl⟩
  | link m c ih =>
    refine ⟨?_, ?_⟩
    · simp [chainSer, chainMsg, chainTail, specNestedJson, ih.1]
    · simp [chainToSTree, chainMsg, chainTail, specNestedSTree, ih.2]

/-- The entry line of any nested tree render starts with the state's bullet
glyph. -/
theorem displayNestedTree_entry (d : String) (ss : List ESource) (k : DKind) :
    ∃ r, displayNestedTree (.mk d ss) k = glyphStr k ++ r := by
  have h : ∃ m, displayNestedTree (.mk d ss) k =
      applyIndentSkip "  " (glyphStr k ++ d ++ "\n") ++ m := by
    match ss, k with
    | [], k => exact ⟨"", by cases k <;> simp [displayNestedTree]⟩
    | [s], .single =>
      exact ⟨displayNestedSource s .single, by simp [displayNestedTree]⟩
    | [s], .multi =>
      exact ⟨applyIndent "  " (displayNestedSource s .single), by
        simp [displayNestedTree]⟩
    | a :: b :: r, k =>
      exact ⟨applyIndent "  "
          (displayNestedSource a .multi ++ displayNestedSource b .multi ++
            displayMultiRest r), by
        cases k <;> simp [displayNestedTree]⟩
  obtain ⟨m, hm⟩ := h
  exact ⟨applyIndentSkip "  " (d ++ "\n") ++ m, by
    rw [hm, applyIndentSkip_glyph, String.append_assoc]⟩

/-- C4: the entry line of a nested tree uses glyph `-` in `Single` state and
`+` in `Multi` state; with zero sources rendering stops after the entry line;
with one source the child runs in `Single` state, flat under a `Single`
parent and under one extra two-space indent level under a `Multi` parent;
with more than one source every child runs in `Multi` state under one extra
indent level regardless of the parent state. -/
theorem c4_nested_tree_cases (d : String) (ss : List ESource) (s s₁ s₂ : ESource)
    (rest : List ESource) :
    (∃ r, displayNestedTree (.mk d ss) .single = "- " ++ r) ∧
    (∃ r, displayNestedTree (.mk d ss) .multi = "+ " ++ r) ∧
    (∀ k, displayNestedTree (.mk d []) k =
      applyIndentSkip "  " (glyphStr k ++ d ++ "\n")) ∧
    displayNestedTree (.mk d [s]) .single =
      applyIndentSkip "  " ("- " ++ d ++ "\n") ++ displayNestedSource s .single ∧
    displayNestedTree (.mk d [s]) .multi =
      applyIndentSkip "  " ("+ " ++ d ++ "\n") ++
        applyIndent "  " (displayNestedSource s .single) ∧
    (∀ k, displayNestedTree (.mk d (s₁ :: s₂ :: rest)) k =
      applyIndentSkip "  " (glyphStr k ++ d ++ "\n") ++
        applyIndent "  "
          (displayNestedSource s₁ .multi ++ displayNestedSource s₂ .multi ++
            displayMultiRest rest)) := by
  refine ⟨?_, ?_, ?_, ?_, ?_, ?_⟩
  · exact displayNestedTree_entry d ss .single
  · exact displayNestedTree_entry d ss .multi
  · intro k
    cases k <;> simp [displayNestedTree]
  · simp [displayNestedTree, glyphStr]
  · simp [displayNestedTree, glyphStr]
  · intro k
    cases k <;> simp [displayNestedTree, glyphStr]

/-- C5: a chain rendered in `Multi` state has entry line `+` followed by the
first link's message, and every further link of the cause chain is one
secondary bullet line `  - msg`, one extra two-space level in, in chain
order. -/
theorem c5_chain_multi_links (e : ErrChain)
    (h : ∀ m ∈ chainMsg e :: chainTail e, '\n' ∉ m.data) :
    displayNestedError e .multi =
      "+ " ++ chainMsg e ++ "\n" ++
        concatMap (fun m => "  - " ++ m ++ "\n") (chainTail e) := by
  have hmsg : '\n' ∉ (chainMsg e).data := h _ (List.mem_cons_self _ _)
  have htail : ∀ m ∈ chainTail e, '\n' ∉ m.data := fun m hm =>
    h m (List.mem_cons_of_mem _ hm)
  rw [displayNestedError, displayLinksMulti_noNL e htail,
    show ("+ " ++ chainMsg e ++ "\n") = (("+ " ++ chainMsg e) ++ "\n") from rfl,
    applyIndentSkip_line "  " ("+ " ++ chainMsg e)
      (noNL_append "+ " (chainMsg e) (by decide) hmsg)]

theorem c5_chain_multi_links_witness :
    displayNestedError (.link "x" (.leaf "y")) .multi = "+ x\n  - y\n" :=
  c5_chain_multi_links (.link "x" (.leaf "y")) (by decide)

/-- C6: a tree whose single source is the chain `A ← B ← C` renders all three
link messages at the same indent level, each on its own `- ` line. -/
theorem c6_single_chain_flat (d a b c : String)
    (ha : '\n' ∉ a.data) (hb : '\n' ∉ b.data) (hc : '\n' ∉ c.data) :
    displayTree (.mk d [.error (.link a (.link b (.leaf c)))]) =
      d ++ "\n\nCaused by:\n\n" ++
        ("  " ++ ("- " ++ a ++ "\n")) ++ ("  " ++ ("- " ++ b ++ "\n")) ++
          ("  " ++ ("- " ++ c ++ "\n")) := by
  have hchain :
      displayNestedError (.link a (.link b (.leaf c))) .single =
        ("- " ++ a ++ "\n") ++ (("- " ++ b ++ "\n") ++ (("- " ++ c ++ "\n") ++ "")) := by
    rw [displayNestedError,
      displayLinksSingle_noNL (.link a (.link b (.leaf c)))
        (by
          intro m hm
          simp [chainTail, chainMsg] at hm
          rcases hm with rfl | rfl <;> assumption),
      show ("- " ++ chainMsg (.link a (.link b (.leaf c))) ++ "\n") =
        (("- " ++ a) ++ "\n") from rfl,
      applyIndentSkip_line "  " ("- " ++ a) (noNL_append "- " a (by decide) ha)]
    simp [chainTail, chainMsg, concatMap, String.append_assoc]
  have hline : ∀ (m : String), '\n' ∉ m.data →
      applyIndent "  " (("- " ++ m) ++ "\n") = "  " ++ ("- " ++ m ++ "\n") := by
    intro m hm
    rw [applyIndent_line "  " ("- " ++ m)
      (by
        intro hdata
        have : ("- " ++ m).data = [] := hdata
        simp [String.data_append] at this)
      (noNL_append "- " m (by decide) hm), String.append_assoc]
  rw [displayTree]
  rw [show displayNestedSource (.error (.link a (.link b (.leaf c)))) .single =
      displayNestedError (.link a (.link b (.leaf c))) .single from rfl, hchain]
  rw [applyIndent_block "  " ("- " ++ a ++ "\n") _
      (by rw [show ("- " ++ a ++ "\n") = (("- " ++ a) ++ "\n") from rfl]
          exact needAfter_newline true ("- " ++ a)),
    applyIndent_block "  " ("- " ++ b ++ "\n") _
      (by rw [show ("- " ++ b ++ "\n") = (("- " ++ b) ++ "\n") from rfl]
          exact needAfter_newline true ("- " ++ b))]
  rw [show applyIndent "  " (("- " ++ c ++ "\n") ++ "") =
      applyIndent "  " (("- " ++ c) ++ "\n") by simp [String.append_assoc]]
  rw [show ("- " ++ a ++ "\n") = (("- " ++ a) ++ "\n") from rfl,
    show ("- " ++ b ++ "\n") = (("- " ++ b) ++ "\n") from rfl,
    hline a ha, hline b hb, hline c hc]
  simp [String.append_assoc]

theorem c6_single_chain_flat_witness :
    displayTree (.mk "top" [.error (.link "a" (.link "b" (.leaf "c")))]) =
      "top\n\nCaused by:\n\n  - a\n  - b\n  - c\n" :=
  c6_single_chain_flat "top" "a" "b" "c" (by decide) (by decide) (by decide)

/-- C7: a node with no sources renders as exactly its display string;
otherwise `display_tree` writes the separator `"\n\nCaused by:\n"` plus a
blank line between the root message and the first source block, while the
plain-error fallback `display_error` writes `"\n\nCaused by:"` with no blank
line before descending into the single cause chain (whose first line starts
immediately with `- `). -/
theorem c7_caused_by_separators (d m : String) (s : ESource) (rest : List ESource)
    (c : ErrChain) :
    displayTree (.mk d []) = d ∧
    displayTree (.mk d (s :: rest)) =
      d ++ "\n\nCaused by:\n\n" ++
        applyIndent "  "
          (match rest with
           | [] => displayNestedSource s .single
           | s₂ :: r =>
             displayNestedSource s .multi ++ displayNestedSource s₂ .multi ++
               displayMultiRest r) ∧
    displayError (.leaf m) = m ∧
    displayError (.link m c) =
      m ++ "\n\nCaused by:\n" ++ displayNestedError c .single ∧
    (∃ r, displayNestedError c .single = "- " ++ r) := by
  refine ⟨?_, ?_, ?_, ?_, ?_⟩
  · simp [displayTree]
  · cases rest <;> simp [displayTree, String.append_assoc]
  · simp [displayError, chainMsg, chainCause]
  · simp [displayError, chainMsg, chainCause, String.append_assoc]
  · rw [displayNestedError,
      show ("- " ++ chainMsg c ++ "\n") = ("- " ++ (chainMsg c ++ "\n")) from
        String.append_assoc _ _ _,
      applyIndentSkip_split "  " "- " (chainMsg c ++ "\n") (by decide),
      String.append_assoc]
    exact ⟨_, rfl⟩

/-- C9: `TreeImpl::new_wrapped_tree` (and every constructor delegating to it)
collapses an empty source list into a plain chain node carrying only the
message; a `Tree` node it builds never has an empty source list; and a
`Mishap` built with zero sources has empty `sources()` and displays just the
message. -/
theorem c9_empty_sources_collapse (msg : String) (ss : List ETree) (d : String) :
    newWrappedTree msg [] = .error (.leaf msg) ∧
    fromErrorTreesAndMsg msg [] = .error (.leaf msg) ∧
    fromAnyhowsAndMsg msg [] = .error (.leaf msg) ∧
    fromErrorsAndMsg msg [] = .error (.leaf msg) ∧
    fromBorrowedTree (.mk d []) = .error (.leaf d) ∧
    (∀ t, newWrappedTree msg ss = .tree t → t.sources ≠ []) ∧
    mishapSources (newWrappedTree msg []) = [] ∧
    displayTree (mishapToETree (newWrappedTree msg [])) = msg := by
  refine ⟨rfl, rfl, rfl, rfl, ?_, ?_, rfl, ?_⟩
  · simp [fromBorrowedTree, borrowedSources, newWrappedTree]
  · intro t ht
    cases ss with
    | nil => simp [newWrappedTree] at ht
    | cons a as =>
      simp only [newWrappedTree, List.isEmpty_cons, if_neg] at ht
      cases ht
      simp [ETree.sources]
  · simp [newWrappedTree, mishapToETree, chainToETree, chainMsg, chainCause,
      displayTree]

theorem c9_empty_sources_collapse_witness :
    (ETree.mk "m" [ESource.tree (ETree.mk "a" [])]).sources ≠ [] :=
  (c9_empty_sources_collapse "m" [ETree.mk "a" []] "d").2.2.2.2.2.1
    (ETree.mk "m" [ESource.tree (ETree.mk "a" [])]) rfl

/-- C10: the plain `Display` of a `Mishap` prints only the root message —
the wrapping node's message or the topmost anyhow message — independently of
any sources and with no `Caused by` banner; the full rendering through
`display_tree` begins with that same message, with a non-empty remainder only
when sources exist. -/
theorem c10_plain_display_root_only :
    (∀ (m : String) (ss : List ESource), mishapFmt (.tree (.mk m ss)) = m) ∧
    (∀ (m : String) (c : ErrChain), mishapFmt (.error (.link m c)) = m) ∧
    (∀ m : String, mishapFmt (.error (.leaf m)) = m) ∧
    (∀ k, ∃ rest, displayTree (mishapToETree k) = mishapFmt k ++ rest ∧
      (mishapSources k = [] → rest = "")) := by
  refine ⟨fun m ss => rfl, fun m c => rfl, fun m => rfl, ?_⟩
  intro k
  cases k with
  | error e =>
    cases e with
    | leaf m =>
      exact ⟨"", by
        simp [mishapToETree, chainToETree, chainMsg, chainCause, displayTree,
          mishapFmt], fun _ => rfl⟩
    | link m c =>
      refine ⟨"\n\nCaused by:\n\n" ++
        applyIndent "  " (displayNestedSource (.error c) .single), ?_, ?_⟩
      · simp [mishapToETree, chainToETree, chainMsg, chainCause, displayTree,
          mishapFmt, String.append_assoc]
      · intro h
        simp [mishapSources, chainCause] at h
  | tree t =>
    cases t with
    | mk d ss =>
      cases ss with
      | nil =>
        exact ⟨"", by
          simp [mishapToETree, displayTree, mishapFmt, ETree.display], fun _ => rfl⟩
      | cons s rest =>
        cases rest with
        | nil =>
          refine ⟨"\n\nCaused by:\n\n" ++
            applyIndent "  " (displayNestedSource s .single), ?_, ?_⟩
          · simp [mishapToETree, displayTree, mishapFmt, ETree.display,
              String.append_assoc]
          · intro h
            simp [mishapSources, ETree.sources] at h
        | cons s₂ r =>
          refine ⟨"\n\nCaused by:\n\n" ++
            applyIndent "  "
              (displayNestedSource s .multi ++ displayNestedSource s₂ .multi ++
                displayMultiRest r), ?_, ?_⟩
          · simp [mishapToETree, displayTree, mishapFmt, ETree.display,
              String.append_assoc]
          · intro h
            simp [mishapSources, ETree.sources] at h

theorem c10_plain_display_root_only_witness :
    displayTree (mishapToETree (.error (.leaf "m"))) = "m" ++ "" := by
  obtain ⟨r, h1, h2⟩ := c10_plain_display_root_only.2.2.2 (.error (.leaf "m"))
  rw [h1, h2 rfl]
  rfl

end ErrTree
